import Mathlib

/- Verification of the conversion core of the cc2_xfbin_blender add-on.

   Shallow embedding of src/blender/common/coordinate_converter.py,
   src/blender/exporter.py and src/blender/importer.py.

   Numeric scalars of the Python code (floats) are modelled over exact
   fields: the rational numbers wherever the embedded code must stay
   executable, and the real numbers where trigonometry enters (bone
   rotation matrices). -/

namespace Xfbin

/-- Association-list lookup in which the LAST binding for a key wins,
    modelling a Python dict built by successive insertions (later
    insertions overwrite earlier ones). -/
def dlookup {κ α : Type} [DecidableEq κ] : List (κ × α) → κ → Option α
  | [], _ => none
  | p :: ps, k =>
    match dlookup ps k with
    | some v => some v
    | none => if p.1 = k then some p.2 else none

theorem dlookup_append {κ α : Type} [DecidableEq κ] (l₁ l₂ : List (κ × α)) (k : κ) :
    dlookup (l₁ ++ l₂) k =
      match dlookup l₂ k with
      | some v => some v
      | none => dlookup l₁ k := by
  induction l₁ with
  | nil =>
    cases h : dlookup l₂ k <;> simp [dlookup, h]
  | cons p ps ih =>
    simp only [List.cons_append, dlookup, List.append_eq]
    rw [ih]
    cases h : dlookup l₂ k <;> simp

theorem dlookup_eq_none_iff {κ α : Type} [DecidableEq κ] (d : List (κ × α)) (k : κ) :
    dlookup d k = none ↔ ∀ p ∈ d, p.1 ≠ k := by
  induction d with
  | nil => simp [dlookup]
  | cons p ps ih =>
    simp only [dlookup, List.mem_cons]
    cases h : dlookup ps k with
    | some v =>
      have hps : ¬ (∀ q ∈ ps, q.1 ≠ k) := by
        intro hall
        rw [← ih] at hall
        rw [hall] at h
        exact Option.noConfusion h
      simp only [reduceCtorEq, false_iff]
      intro hall
      exact hps (fun q hq => hall q (Or.inr hq))
    | none =>
      have hps := ih.mp h
      constructor
      · intro hif q hq
        rcases hq with rfl | hq
        · intro hk
          rw [if_pos hk] at hif
          exact Option.noConfusion hif
        · exact hps q hq
      · intro hall
        rw [if_neg (hall p (Or.inl rfl))]

theorem dlookup_isSome_iff {κ α : Type} [DecidableEq κ] (d : List (κ × α)) (k : κ) :
    (dlookup d k).isSome = true ↔ ∃ p ∈ d, p.1 = k := by
  constructor
  · intro h
    by_contra hne
    push_neg at hne
    have hnone : dlookup d k = none := (dlookup_eq_none_iff d k).mpr hne
    rw [hnone] at h
    simp at h
  · rintro ⟨p, hp, hpk⟩
    cases hs : dlookup d k with
    | some v => rfl
    | none => exact absurd hpk ((dlookup_eq_none_iff d k).mp hs p hp)

/-! ## Unit/Space Converter (src/blender/common/coordinate_converter.py) -/

/-- coordinate_converter.pos_cm_to_m: `Vector(pos) * 0.01`
    (componentwise multiplication by 0.01). -/
def pos_cm_to_m {α : Type} [Field α] (p : Fin 3 → α) : Fin 3 → α :=
  fun i => p i * (1 / 100)

/-- coordinate_converter.pos_m_to_cm: `(pos * 100)[:]`
    (componentwise multiplication by 100). -/
def pos_m_to_cm {α : Type} [Field α] (p : Fin 3 → α) : Fin 3 → α :=
  fun i => p i * 100

/-- coordinate_converter.uv_to_blender: `(uv[0], 1.0 - uv[1])`. -/
def uv_to_blender {α : Type} [Field α] (uv : α × α) : α × α := (uv.1, 1 - uv.2)

/-- coordinate_converter.uv_from_blender: `(uv[0], 1.0 - uv[1])`. -/
def uv_from_blender {α : Type} [Field α] (uv : α × α) : α × α := (uv.1, 1 - uv.2)

/-- C8: applying the V-axis flip transform twice is the identity; the
    import-direction and export-direction UV conversions are exact mutual
    inverses: `uv_to_blender (uv_from_blender u) = u` and conversely. -/
theorem uv_flip_involutive (u : ℚ × ℚ) :
    uv_to_blender (uv_from_blender u) = u ∧ uv_from_blender (uv_to_blender u) = u := by
  constructor <;> simp [uv_to_blender, uv_from_blender]

/-- C9: for every position with all components under 1000 units in absolute
    value, converting with the 0.01-factor conversion and back with the
    100-factor conversion returns the position within 1e-5 absolute
    tolerance (in the exact-arithmetic model the round-trip is exact, in
    both composition orders). -/
theorem pos_roundtrip_tolerance (p : Fin 3 → ℚ) (h : ∀ i, |p i| < 1000) (i : Fin 3) :
    |pos_m_to_cm (pos_cm_to_m p) i - p i| ≤ 1 / 100000 ∧
    |pos_cm_to_m (pos_m_to_cm p) i - p i| ≤ 1 / 100000 := by
  have h1 : pos_m_to_cm (pos_cm_to_m p) i - p i = 0 := by
    simp only [pos_m_to_cm, pos_cm_to_m]
    ring
  have h2 : pos_cm_to_m (pos_m_to_cm p) i - p i = 0 := by
    simp only [pos_m_to_cm, pos_cm_to_m]
    ring
  rw [h1, h2]
  norm_num

/-- Witness for C9 at the concrete position (1, 2, 3). -/
theorem pos_roundtrip_tolerance_witness :
    |pos_m_to_cm (pos_cm_to_m ![1, 2, 3]) 0 - (![1, 2, 3] : Fin 3 → ℚ) 0| ≤ 1 / 100000 ∧
    |pos_cm_to_m (pos_m_to_cm ![1, 2, 3]) 0 - (![1, 2, 3] : Fin 3 → ℚ) 0| ≤ 1 / 100000 :=
  pos_roundtrip_tolerance ![1, 2, 3] (by intro i; fin_cases i <;> norm_num) 0

/-! ## Mesh Converter and Chunk Graph Assembler (src/blender/exporter.py)

    The host-side data (bmesh geometry, property groups) enters the
    embedded functions as already-extracted values: per sub-mesh the
    deduplicated vertex count, triangle count and referenced material
    name; per model its name, configured mesh bone and sub-mesh list. -/

/-- One sub-mesh as gathered by XfbinExporter.make_models just before the
    capacity checks: deduplicated vertex count, triangle count, and the
    xfbin material name referenced by its property group. -/
structure SubMesh where
  nverts : Nat
  nfaces : Nat
  material : String
deriving DecidableEq

/-- One NUD empty (model) together with its property-group data. -/
structure ModelInput where
  name : String
  mesh_bone : String
  meshes : List SubMesh
deriving DecidableEq

/-- A NuccChunkModel as produced by make_models: name, resolved coordinate
    index of the mesh bone, and the surviving sub-meshes. -/
structure ModelOut where
  name : String
  coord_index : Nat
  meshes : List SubMesh
deriving DecidableEq

/-- `coord_indices_dict = {name: i for i, name in enumerate(coord names)}`. -/
def coordIndicesDict (coords : List String) : List (String × Nat) :=
  coords.enum.map (fun p => (p.2, p.1))

/-- The four keep conditions of the sub-mesh loop in make_models, in source
    order: at least 3 deduplicated vertices, vertex count within
    MAX_VERTICES, face count within MAX_FACES, and an existing xfbin
    material (each failing mesh is skipped with a diagnostic). -/
def keepMesh (maxV maxF : Nat) (mats : List String) (m : SubMesh) : Bool :=
  decide (3 ≤ m.nverts) && decide (m.nverts ≤ maxV) && decide (m.nfaces ≤ maxF) &&
    mats.contains m.material

/-- Per-model body of the make_models loop: build the chunk, keep the
    surviving sub-meshes, and skip the whole model when none survives.
    The coordinate index is `coord_indices_dict.get(nud_data.mesh_bone, 0)`. -/
def processModel (coords mats : List String) (maxV maxF : Nat) (inp : ModelInput) :
    Option ModelOut :=
  let kept := inp.meshes.filter (keepMesh maxV maxF mats)
  if kept.isEmpty then none
  else some { name := inp.name,
              coord_index := (dlookup (coordIndicesDict coords) inp.mesh_bone).getD 0,
              meshes := kept }

/-- XfbinExporter.make_models restricted to the data the claims are about:
    the list of model chunks that survive processing. -/
def make_models (coords mats : List String) (maxV maxF : Nat)
    (inputs : List ModelInput) : List ModelOut :=
  inputs.filterMap (processModel coords mats maxV maxF)

/-- `model_chunks = {m.name: m for m in self.make_models(...)}` (a Python
    dict: a later model with the same name overwrites an earlier one). -/
def buildModelChunksDict (models : List ModelOut) : List (String × ModelOut) :=
  models.map (fun m => (m.name, m))

/-- The dict used for model-group resolution: the model dict after
    `model_chunks[(String of None)] = None` was added (the assignment comes
    last, so it overwrites any model that happens to carry that name). -/
def groupModelDict (models : List ModelOut) : List (String × Option ModelOut) :=
  (buildModelChunksDict models).map (fun p => (p.1, some p.2)) ++ [("None", none)]

/-- `[model_chunks[c.value] for c in group.models if c.value in model_chunks]`:
    entries are looked up by string key and entries whose key is absent from
    the dict are dropped. -/
def resolveGroupEntries (models : List ModelOut) (entries : List String) :
    List (Option ModelOut) :=
  entries.filterMap (dlookup (groupModelDict models))

/-- A ClumpModelGroup as built by make_clump. -/
structure ClumpModelGroup where
  flag0 : Nat
  flag1 : Nat
  unk : Int
  model_chunks : List (Option ModelOut)
deriving DecidableEq

/-- The per-group data held in the clump property group. -/
structure GroupData where
  flag0 : Nat
  flag1 : Nat
  unk : Int
  models : List String
deriving DecidableEq

/-- Group construction inside make_clump. -/
def make_group (models : List ModelOut) (gd : GroupData) : ClumpModelGroup :=
  { flag0 := gd.flag0, flag1 := gd.flag1, unk := gd.unk,
    model_chunks := resolveGroupEntries models gd.models }

/-- A NuccChunkClump restricted to the fields the claims are about. -/
structure Clump where
  coord_chunks : List String
  model_chunks : List ModelOut
  model_groups : List ClumpModelGroup
deriving DecidableEq

/-- The export options consumed by make_clump. -/
structure ExportSettings where
  inject : Bool
  export_bones : Bool
  export_meshes : Bool
deriving DecidableEq

/-- XfbinExporter.make_clump, branch structure of the bone and mesh
    sections. `found` is the result of looking the clump up in the loaded
    xfbin; as in the source, it is consulted only in inject mode.
    `newCoords` and `builtModels` stand for the results of make_coords and
    make_models, `dataModels` and `dataGroups` for the clump property-group
    data. Python exceptions are modelled by `Except.error`. -/
def make_clump (s : ExportSettings) (found : Option Clump) (newCoords : List String)
    (builtModels : List ModelOut) (dataModels : List String)
    (dataGroups : List GroupData) : Except String Clump :=
  let old := if s.inject then found else none
  match (if s.export_bones then Except.ok newCoords
         else match old with
           | some oc => Except.ok oc.coord_chunks
           | none => Except.error "Cannot export bones.") with
  | Except.error e => Except.error e
  | Except.ok coords =>
    if s.export_meshes then
      Except.ok { coord_chunks := coords,
                  model_chunks :=
                    dataModels.filterMap (dlookup (buildModelChunksDict builtModels)),
                  model_groups := dataGroups.map (make_group builtModels) }
    else match old with
      | some oc =>
        Except.ok { coord_chunks := coords,
                    model_chunks := oc.model_chunks,
                    model_groups := oc.model_groups }
      | none => Except.error "Cannot export meshes."

/-- The per-armature arguments consumed by one make_clump call during
    export_collection. -/
structure ClumpArgs where
  found : Option Clump
  newCoords : List String
  builtModels : List ModelOut
  dataModels : List String
  dataGroups : List GroupData

def make_clump_args (s : ExportSettings) (a : ClumpArgs) : Except String Clump :=
  make_clump s a.found a.newCoords a.builtModels a.dataModels a.dataGroups

/-- The armature loop of export_collection: each clump is built in turn and
    a raised exception aborts the whole loop. -/
def export_clumps (s : ExportSettings) : List ClumpArgs → Except String (List Clump)
  | [] => Except.ok []
  | a :: as =>
    match make_clump_args s a with
    | Except.error e => Except.error e
    | Except.ok c =>
      match export_clumps s as with
      | Except.error e => Except.error e
      | Except.ok cs => Except.ok (c :: cs)

/-- export_collection: the output file is written (`some` pages) only after
    every clump was assembled; an exception leaves no output (`none`). -/
def export_collection (s : ExportSettings) (args : List ClumpArgs) :
    Option (List Clump) :=
  match export_clumps s args with
  | Except.ok cs => some cs
  | Except.error _ => none

theorem dlookup_isSome_iff_mem_keys {κ α : Type} [DecidableEq κ]
    (d : List (κ × α)) (k : κ) :
    (dlookup d k).isSome = true ↔ k ∈ d.map (fun p => p.1) := by
  rw [dlookup_isSome_iff, List.mem_map]

theorem groupModelDict_keys (models : List ModelOut) :
    (groupModelDict models).map (fun p => p.1) =
      models.map (fun m => m.name) ++ ["None"] := by
  simp [groupModelDict, buildModelChunksDict, List.map_map, Function.comp]

theorem dlookup_groupModelDict_isSome (models : List ModelOut) (v : String) :
    (dlookup (groupModelDict models) v).isSome = true ↔
      v = "None" ∨ v ∈ models.map (fun m => m.name) := by
  rw [dlookup_isSome_iff_mem_keys, groupModelDict_keys]
  simp only [List.mem_append, List.mem_singleton]
  exact or_comm

theorem dlookup_groupModelDict_none_key (models : List ModelOut) :
    dlookup (groupModelDict models) "None" = some none := by
  rw [groupModelDict, dlookup_append]
  simp [dlookup]

/-- C1 counterexample: with an empty resolved model set, a group whose
    single entry has the key "Missing" resolves to the empty list — the
    entry is removed, not replaced by the null sentinel, so the output
    group does not keep the entry count of its input group. -/
theorem group_entry_dropped_counterexample :
    resolveGroupEntries [] ["Missing"] = [] ∧
    resolveGroupEntries [] ["Missing"] ≠ [(none : Option ModelOut)] := by
  constructor
  · decide
  · decide

/-- C1 amended: a group entry resolves to the null sentinel only when its
    key is the literal string "None"; an entry whose key names no model in
    the resolved set (and is not "None") is dropped from the group, so the
    output length is the number of entries naming a model or the sentinel,
    not the input length. -/
theorem resolve_group_entries_amended (models : List ModelOut) (g : List String) :
    (resolveGroupEntries models g).length =
      g.countP (fun v => decide (v = "None" ∨ v ∈ models.map (fun m => m.name))) ∧
    resolveGroupEntries models ("None" :: g) =
      none :: resolveGroupEntries models g := by
  constructor
  · induction g with
    | nil => rfl
    | cons v g ih =>
      have ih2 : (g.filterMap (dlookup (groupModelDict models))).length =
          g.countP (fun v => decide (v = "None" ∨ v ∈ models.map (fun m => m.name))) := ih
      by_cases hv : v = "None" ∨ v ∈ models.map (fun m => m.name)
      · have hsome : (dlookup (groupModelDict models) v).isSome = true :=
          (dlookup_groupModelDict_isSome models v).mpr hv
        rcases Option.isSome_iff_exists.mp hsome with ⟨x, hx⟩
        have hv2 : v = "None" ∨ ∃ a ∈ models, a.name = v := by
          simpa [List.mem_map] using hv
        simp [resolveGroupEntries, List.filterMap_cons, List.countP_cons, hx, hv2, ih2]
      · have hnone : dlookup (groupModelDict models) v = none := by
          cases hs : dlookup (groupModelDict models) v with
          | none => rfl
          | some x =>
            exact absurd ((dlookup_groupModelDict_isSome models v).mp (by rw [hs]; rfl)) hv
        simp only [resolveGroupEntries, List.filterMap_cons, hnone, List.countP_cons, ih2]
        have hv2 : ¬ v = "None" ∧ ∀ x ∈ models, ¬ x.name = v := by
          push_neg at hv
          refine ⟨hv.1, fun x hx hxv => hv.2 (List.mem_map.mpr ⟨x, hx, hxv⟩)⟩
        simp only [List.mem_map, not_exists, hv2.1, false_or, decide_eq_false_iff_not]
        simp [hv2.1]
        exact hv2.2
  · rw [resolveGroupEntries, List.filterMap_cons, dlookup_groupModelDict_none_key]
    rfl

/-- C5: in inject mode, with bone export disabled the output clump reuses
    the existing clump's coordinate list unchanged, and with no existing
    clump the export raises; independently, with mesh export disabled the
    model list and model groups are reused unchanged, and with no existing
    clump the export raises; any such exception aborts export_collection
    before any output is produced. -/
theorem make_clump_inject_reuse (s : ExportSettings) (found : Option Clump)
    (newCoords : List String) (builtModels : List ModelOut)
    (dataModels : List String) (dataGroups : List GroupData)
    (hinj : s.inject = true) :
    (s.export_bones = false → ∀ oc, found = some oc →
      ∃ c, make_clump s found newCoords builtModels dataModels dataGroups = Except.ok c ∧
        c.coord_chunks = oc.coord_chunks) ∧
    (s.export_bones = false → found = none →
      make_clump s found newCoords builtModels dataModels dataGroups =
        Except.error "Cannot export bones.") ∧
    (s.export_meshes = false → ∀ oc, found = some oc →
      ∃ c, make_clump s found newCoords builtModels dataModels dataGroups = Except.ok c ∧
        c.model_chunks = oc.model_chunks ∧ c.model_groups = oc.model_groups) ∧
    (s.export_meshes = false → found = none →
      ∃ e, make_clump s found newCoords builtModels dataModels dataGroups =
        Except.error e) ∧
    (∀ e pre post,
      make_clump_args s ⟨found, newCoords, builtModels, dataModels, dataGroups⟩ =
        Except.error e →
      export_collection s
        (pre ++ ⟨found, newCoords, builtModels, dataModels, dataGroups⟩ :: post) =
        none) := by
  obtain ⟨si, sb, sm⟩ := s
  simp only at hinj
  subst hinj
  refine ⟨?_, ?_, ?_, ?_, ?_⟩
  · intro hb oc hoc
    simp only at hb
    subst hb
    subst hoc
    cases sm <;> exact ⟨_, rfl, rfl⟩
  · intro hb hf
    simp only at hb
    subst hb
    subst hf
    rfl
  · intro hm oc hoc
    simp only at hm
    subst hm
    subst hoc
    cases sb <;> exact ⟨_, rfl, rfl, rfl⟩
  · intro hm hf
    simp only at hm
    subst hm
    subst hf
    cases sb <;> exact ⟨_, rfl⟩
  · intro e pre post herr
    have hclumps : ∀ post2, ∃ e2,
        export_clumps ⟨true, sb, sm⟩
          (pre ++ ⟨found, newCoords, builtModels, dataModels, dataGroups⟩ :: post2) =
          Except.error e2 := by
      intro post2
      induction pre with
      | nil =>
        refine ⟨e, ?_⟩
        rw [List.nil_append, export_clumps, herr]
      | cons b bs ih =>
        rw [List.cons_append, export_clumps]
        cases make_clump_args ⟨true, sb, sm⟩ b with
        | error e3 => exact ⟨e3, rfl⟩
        | ok c =>
          rcases ih with ⟨e2, he2⟩
          rw [he2]
          exact ⟨e2, rfl⟩
    rcases hclumps post with ⟨e2, he2⟩
    rw [export_collection, he2]

/-- Witness for C5: reusing the coordinate list of a concrete existing
    clump when bone export is disabled. -/
theorem make_clump_inject_reuse_witness :
    ∃ c, make_clump ⟨true, false, true⟩ (some ⟨["root"], [], []⟩) [] [] [] [] =
        Except.ok c ∧
      c.coord_chunks = (Clump.mk ["root"] [] []).coord_chunks :=
  (make_clump_inject_reuse ⟨true, false, true⟩ (some ⟨["root"], [], []⟩) [] [] [] []
    rfl).1 rfl ⟨["root"], [], []⟩ rfl

/-- C6: a sub-mesh whose deduplicated vertex count exceeds the vertex
    maximum or whose triangle count exceeds the face maximum never appears
    in any exported model (the sub-mesh is dropped whole, not truncated),
    and a model none of whose sub-meshes survive is omitted from the
    output model list entirely. -/
theorem mesh_capacity_policy (coords mats : List String) (maxV maxF : Nat) :
    (∀ inputs m out, (maxV < m.nverts ∨ maxF < m.nfaces) →
      out ∈ make_models coords mats maxV maxF inputs → ¬ m ∈ out.meshes) ∧
    (∀ inp pre post, inp.meshes.filter (keepMesh maxV maxF mats) = [] →
      make_models coords mats maxV maxF (pre ++ inp :: post) =
        make_models coords mats maxV maxF (pre ++ post)) := by
  constructor
  · intro inputs m out hex hout hmem
    rcases List.mem_filterMap.mp hout with ⟨inp, _, hpm⟩
    simp only [processModel] at hpm
    by_cases hk : (inp.meshes.filter (keepMesh maxV maxF mats)).isEmpty
    · rw [if_pos hk] at hpm
      exact Option.noConfusion hpm
    · rw [if_neg hk] at hpm
      injection hpm with hpm
      subst hpm
      have hkeep := (List.mem_filter.mp hmem).2
      simp only [keepMesh, Bool.and_eq_true, decide_eq_true_eq] at hkeep
      rcases hex with hx | hx <;> omega
  · intro inp pre post hfilt
    have hnone : processModel coords mats maxV maxF inp = none := by
      simp only [processModel, hfilt]
      rfl
    simp [make_models, List.filterMap_append, List.filterMap_cons, hnone]

/-- Witness for C6: a sub-mesh with 5 vertices is dropped when the vertex
    maximum is 4 and does not appear in the surviving model. -/
theorem mesh_capacity_policy_witness :
    ¬ (⟨5, 1, "mt"⟩ : SubMesh) ∈ (ModelOut.mk "mdl" 0 [⟨3, 1, "mt"⟩]).meshes :=
  (mesh_capacity_policy ["b"] ["mt"] 4 4).1
    [⟨"mdl", "b", [⟨3, 1, "mt"⟩, ⟨5, 1, "mt"⟩]⟩] ⟨5, 1, "mt"⟩
    (ModelOut.mk "mdl" 0 [⟨3, 1, "mt"⟩]) (Or.inl (by decide)) (by decide)

/-- C10: when a model's configured mesh-bone name is not in the clump's
    bone-index table, the exported chunk's coordinate index silently
    defaults to 0, and the model is still exported whenever any of its
    sub-meshes survives (it is dropped only for lack of surviving
    sub-meshes, never because of the unresolved bone name). -/
theorem mesh_bone_default_zero (coords mats : List String) (maxV maxF : Nat)
    (inp : ModelInput) (h : ¬ inp.mesh_bone ∈ coords) :
    (processModel coords mats maxV maxF inp).map (fun out => out.coord_index) =
      if (inp.meshes.filter (keepMesh maxV maxF mats)).isEmpty then none
      else some 0 := by
  have hl : dlookup (coordIndicesDict coords) inp.mesh_bone = none := by
    rw [dlookup_eq_none_iff]
    intro p hp
    rcases List.mem_map.mp hp with ⟨q, hq, rfl⟩
    intro hk
    apply h
    rw [← hk]
    have : q.2 ∈ coords.enum.map Prod.snd := List.mem_map.mpr ⟨q, hq, rfl⟩
    rwa [List.enum_map_snd] at this
  simp only [processModel]
  by_cases he : (inp.meshes.filter (keepMesh maxV maxF mats)).isEmpty
  · simp [he]
  · simp [he, hl]

/-- Witness for C10: a concrete model whose mesh bone "zz" is absent from
    the bone table ["a"] gets coordinate index 0 and is kept. -/
theorem mesh_bone_default_zero_witness :
    (processModel ["a"] ["mt"] 4 4 ⟨"mdl", "zz", [⟨3, 1, "mt"⟩]⟩).map
      (fun out => out.coord_index) = some 0 := by
  rw [mesh_bone_default_zero ["a"] ["mt"] 4 4 ⟨"mdl", "zz", [⟨3, 1, "mt"⟩]⟩ (by decide)]
  decide

/-! ## Export face building and import face filtering -/

/-- One step of `vertex_indices_dict` maintenance: a loop vertex index not
    yet in the dict is assigned the next output index. -/
def vertexIndexInsert (d : List (Nat × Nat)) (v : Nat) : List (Nat × Nat) :=
  if (dlookup d v).isSome then d else d ++ [(v, d.length)]

/-- Register the three corner vertex indices of one loop triangle. -/
def addTriVerts (d : List (Nat × Nat)) (t : Nat × Nat × Nat) : List (Nat × Nat) :=
  vertexIndexInsert (vertexIndexInsert (vertexIndexInsert d t.1) t.2.1) t.2.2

/-- `vertex_indices_dict[l.vert.index]` (the key is always present when the
    code reads it, so the default is never consulted). -/
def remapIndex (d : List (Nat × Nat)) (v : Nat) : Nat := (dlookup d v).getD 0

/-- The face-building loop of make_models: for every loop triangle, record
    its corners in the vertex dict and append the remapped index triple.
    There is no degeneracy check in this loop. -/
def exportFacesGo (d : List (Nat × Nat)) : List (Nat × Nat × Nat) → List (Nat × Nat × Nat)
  | [] => []
  | t :: ts =>
    let d2 := addTriVerts d t
    (remapIndex d2 t.1, remapIndex d2 t.2.1, remapIndex d2 t.2.2) :: exportFacesGo d2 ts

/-- `faces` as produced by the export loop over `bm.calc_loop_triangles()`. -/
def exportFaces (tris : List (Nat × Nat × Nat)) : List (Nat × Nat × Nat) :=
  exportFacesGo [] tris

/-- `len(set(tri_idxs))`: the number of distinct corner indices of a face. -/
def triDistinct (t : Nat × Nat × Nat) : Nat :=
  ([t.1, t.2.1, t.2.2].dedup).length

/-- The triangle loop of XfbinImporter.nud_mesh_to_bmesh: a face whose
    index triple does not have exactly 3 distinct values is skipped. -/
def importFaces (faces : List (Nat × Nat × Nat)) : List (Nat × Nat × Nat) :=
  faces.filter (fun t => triDistinct t == 3)

/-- C4 counterexample: the export loop appends the degenerate triangle
    (0,0,0) (one distinct corner index after remapping) to the exported
    face list instead of rejecting it. -/
theorem export_degenerate_face_kept :
    exportFaces [(0, 0, 0)] = [(0, 0, 0)] ∧ triDistinct (0, 0, 0) < 3 := by
  constructor
  · decide
  · decide

/-- C4 amended: the exporter performs no degeneracy check (it emits one
    output face per input loop triangle); the rejection of triangles with
    fewer than 3 distinct indices happens in the import direction, where
    nud_mesh_to_bmesh skips them. -/
theorem degenerate_faces_import_filter :
    (∀ tris, (exportFaces tris).length = tris.length) ∧
    (∀ faces t, triDistinct t < 3 → ¬ t ∈ importFaces faces) := by
  constructor
  · intro tris
    suffices hgen : ∀ d tris, (exportFacesGo d tris).length = tris.length by
      exact hgen [] tris
    intro d tris
    induction tris generalizing d with
    | nil => rfl
    | cons t ts ih => simp [exportFacesGo, ih]
  · intro faces t hlt hmem
    have := (List.mem_filter.mp hmem).2
    simp only [beq_iff_eq] at this
    omega

/-- Witness for C4 amended: the degenerate triangle (0,0,0) is absent from
    the import of a face list containing it. -/
theorem degenerate_faces_import_filter_witness :
    ¬ (0, 0, 0) ∈ importFaces [(0, 0, 0), (0, 1, 2)] :=
  degenerate_faces_import_filter.2 [(0, 0, 0), (0, 1, 2)] (0, 0, 0) (by decide)

/-! ## Texture chunk validation (export_collection) -/

/-- The bytes of the ASCII magic "NTP3". -/
def ntp3Magic : List Nat := [78, 84, 80, 51]

/-- The sanity check of export_collection:
    `len(chunk.nut_data) > 4 and chunk.nut_data[:4] == b(NTP3)`. -/
def validNut (data : List Nat) : Bool :=
  decide (4 < data.length) && decide (data.take 4 = ntp3Magic)

/-- The texture chunks that reach `add_chunk_page`: buffers failing the
    sanity check are skipped with a diagnostic and the loop continues. -/
def addTexturePages (chunks : List (List Nat)) : List (List Nat) :=
  chunks.filter validNut

/-- C7 counterexample: the buffer that is exactly the 4-byte magic "NTP3"
    starts with the magic, yet fails the length check (`len > 4`) and is
    not added to the texture pages. -/
theorem nut_magic_exact_counterexample :
    ntp3Magic.take 4 = ntp3Magic ∧ validNut ntp3Magic = false ∧
    addTexturePages [ntp3Magic] = [] := by
  refine ⟨?_, ?_, ?_⟩ <;> decide

/-- C7 amended: a buffer whose first 4 bytes are not "NTP3" is never added
    and the loop continues with the remaining chunks (not fatal); a buffer
    starting with "NTP3" is added exactly when at least one byte follows
    the magic (total length > 4) — the bare 4-byte magic is skipped too. -/
theorem nut_validation_amended (chunks : List (List Nat)) (d : List Nat)
    (hmem : d ∈ chunks) :
    (¬ d.take 4 = ntp3Magic → ¬ d ∈ addTexturePages chunks) ∧
    (d.take 4 = ntp3Magic → 4 < d.length → d ∈ addTexturePages chunks) ∧
    (∀ bad rest, validNut bad = false →
      addTexturePages (bad :: rest) = addTexturePages rest) := by
  refine ⟨?_, ?_, ?_⟩
  · intro hmagic hin
    have := (List.mem_filter.mp hin).2
    simp only [validNut, Bool.and_eq_true, decide_eq_true_eq] at this
    exact hmagic this.2
  · intro hmagic hlen
    refine List.mem_filter.mpr ⟨hmem, ?_⟩
    simp only [validNut, Bool.and_eq_true, decide_eq_true_eq]
    exact ⟨hlen, hmagic⟩
  · intro bad rest hbad
    simp [addTexturePages, List.filter_cons, hbad]

/-- Witness for C7 amended: a 5-byte buffer starting with "NTP3" is added. -/
theorem nut_validation_amended_witness :
    [78, 84, 80, 51, 0] ∈ addTexturePages [[78, 84, 80, 51, 0]] :=
  (nut_validation_amended [[78, 84, 80, 51, 0]] [78, 84, 80, 51, 0]
    (by decide)).2.1 (by decide) (by decide)

/-! ## Weight Resolver (the bone-weight block of make_models) -/

/-- The Python sort key `lambda i: 1 - i[1]` under the ascending comparison
    of `sorted`. Python `sorted` is a stable ascending sort; insertion sort
    with this relation places equal keys in input order, matching that
    stability. -/
def weightOrder (p q : String × ℚ) : Prop := 1 - p.2 ≤ 1 - q.2

instance : DecidableRel weightOrder :=
  fun p q => inferInstanceAs (Decidable (1 - p.2 ≤ 1 - q.2))

instance : IsTotal (String × ℚ) weightOrder :=
  ⟨fun p q => le_total (1 - p.2) (1 - q.2)⟩

instance : IsTrans (String × ℚ) weightOrder :=
  ⟨fun _ _ _ h1 h2 => le_trans h1 h2⟩

/-- `sorted(l.vert[deform_layer].items(), key=lambda i: 1 - i[1])` followed
    by the comprehension filter keeping only influences whose vertex-group
    name is present in coord_indices_dict. -/
def b_weights_base (ci : List (String × Nat)) (infl : List (String × ℚ)) :
    List (String × ℚ) :=
  (List.insertionSort weightOrder infl).filter (fun p => (dlookup ci p.1).isSome)

/-- Truncate to the top 4 entries, or pad with zero-weight entries to
    exactly 4. The Python padding entry is `(0, 0.0)` with the integer 0 as
    key, which can never equal a vertex-group name; the integer key is
    modelled by `none`. -/
def padTrunc (l : List (String × ℚ)) : List (Option String × ℚ) :=
  let l2 := l.map (fun p => ((some p.1 : Option String), p.2))
  if 4 < l2.length then l2.take 4
  else l2 ++ List.replicate (4 - l2.length) ((none : Option String), (0 : ℚ))

/-- `coord_indices_dict.get(bw[0], 0)` on either kind of key (the integer
    padding key is never in the dict, so it yields the default 0). -/
def lookupBoneId (ci : List (String × Nat)) : Option String × ℚ → Nat
  | (some n, _) => (dlookup ci n).getD 0
  | (none, _) => 0

/-- The weight block of make_models: sort influences by descending weight,
    keep bones known to the clump, truncate or pad to exactly 4, then
    divide by the weight sum if it is positive; otherwise fall back to bone
    ids [0,0,0,0] and weights [0,0,0,1]. -/
def resolveWeights (ci : List (String × Nat)) (infl : List (String × ℚ)) :
    List Nat × List ℚ :=
  let bw := padTrunc (b_weights_base ci infl)
  let s := (bw.map (fun p => p.2)).sum
  if 0 < s then (bw.map (lookupBoneId ci), bw.map (fun p => p.2 / s))
  else ([0, 0, 0, 0], [0, 0, 0, 1])

theorem padTrunc_eq (l : List (String × ℚ)) :
    padTrunc l = (l.map (fun p => ((some p.1 : Option String), p.2))).take 4 ++
      List.replicate (4 - l.length) ((none : Option String), (0 : ℚ)) := by
  simp only [padTrunc, List.length_map]
  by_cases h : 4 < l.length
  · rw [if_pos h]
    have h4 : 4 - l.length = 0 := by omega
    rw [h4, List.replicate_zero, List.append_nil]
  · rw [if_neg h]
    have ht : (l.map (fun p => ((some p.1 : Option String), p.2))).take 4 =
        l.map (fun p => ((some p.1 : Option String), p.2)) :=
      List.take_of_length_le (by simp; omega)
    rw [ht]

theorem padTrunc_length (l : List (String × ℚ)) : (padTrunc l).length = 4 := by
  rw [padTrunc_eq]
  simp only [List.length_append, List.length_take, List.length_map,
    List.length_replicate]
  omega

theorem sum_map_div (l : List (Option String × ℚ)) (s : ℚ) :
    (l.map (fun p => p.2 / s)).sum = (l.map (fun p => p.2)).sum / s := by
  induction l with
  | nil => simp
  | cons p ps ih => simp [ih, add_div]

theorem b_weights_sorted (ci : List (String × Nat)) (infl : List (String × ℚ)) :
    List.Pairwise (fun a b : String × ℚ => b.2 ≤ a.2) (b_weights_base ci infl) := by
  have hs : List.Sorted weightOrder (List.insertionSort weightOrder infl) :=
    List.sorted_insertionSort weightOrder infl
  have hp : List.Pairwise (fun a b : String × ℚ => b.2 ≤ a.2)
      (List.insertionSort weightOrder infl) := by
    refine hs.imp ?_
    intro a b hab
    simp only [weightOrder] at hab
    linarith
  exact hp.filter _

theorem padTrunc_pairwise (ci : List (String × Nat)) (infl : List (String × ℚ))
    (h : ∀ p ∈ infl, 0 ≤ p.2) :
    List.Pairwise (fun a b : Option String × ℚ => b.2 ≤ a.2)
      (padTrunc (b_weights_base ci infl)) := by
  rw [padTrunc_eq, List.pairwise_append]
  refine ⟨?_, ?_, ?_⟩
  · have hm : List.Pairwise (fun a b : Option String × ℚ => b.2 ≤ a.2)
        ((b_weights_base ci infl).map (fun p => ((some p.1 : Option String), p.2))) := by
      rw [List.pairwise_map]
      exact (b_weights_sorted ci infl).imp (fun hab => hab)
    exact hm.sublist (List.take_sublist _ _)
  · exact List.pairwise_replicate.mpr (Or.inr le_rfl)
  · intro a ha b hb
    rw [List.eq_of_mem_replicate hb]
    rcases List.mem_map.mp (List.mem_of_mem_take ha) with ⟨p, hp, rfl⟩
    have hp2 : p ∈ infl :=
      (List.perm_insertionSort weightOrder infl).mem_iff.mp (List.mem_of_mem_filter hp)
    exact h p hp2

/-- C3: for influences with non-negative weights restricted to bones in the
    clump's table, the weight resolver outputs exactly 4 bone ids and 4
    weights; the weights sum to exactly 1; when the kept sum is positive
    the output weights are in descending order (the sorted-by-descending-
    weight order of the kept entries); when the kept sum is zero the output
    is ids [0,0,0,0] and weights [0,0,0,1]; and the kept list is the sorted
    filtered input truncated to the top 4 and padded with zero entries. -/
theorem resolve_weights_spec (ci : List (String × Nat)) (infl : List (String × ℚ))
    (h : ∀ p ∈ infl, 0 ≤ p.2) :
    (resolveWeights ci infl).1.length = 4 ∧
    (resolveWeights ci infl).2.length = 4 ∧
    (resolveWeights ci infl).2.sum = 1 ∧
    (0 < ((padTrunc (b_weights_base ci infl)).map (fun p => p.2)).sum →
      List.Chain' (fun a b : ℚ => b ≤ a) (resolveWeights ci infl).2) ∧
    (((padTrunc (b_weights_base ci infl)).map (fun p => p.2)).sum = 0 →
      (resolveWeights ci infl).1 = [0, 0, 0, 0] ∧
      (resolveWeights ci infl).2 = [0, 0, 0, 1]) ∧
    padTrunc (b_weights_base ci infl) =
      ((b_weights_base ci infl).map
        (fun p => ((some p.1 : Option String), p.2))).take 4 ++
        List.replicate (4 - (b_weights_base ci infl).length)
          ((none : Option String), (0 : ℚ)) := by
  have hlen : (padTrunc (b_weights_base ci infl)).length = 4 := padTrunc_length _
  by_cases h0 : 0 < ((padTrunc (b_weights_base ci infl)).map (fun p => p.2)).sum
  · have hr : resolveWeights ci infl =
        ((padTrunc (b_weights_base ci infl)).map (lookupBoneId ci),
         (padTrunc (b_weights_base ci infl)).map
           (fun p => p.2 / ((padTrunc (b_weights_base ci infl)).map
             (fun q => q.2)).sum)) := by
      simp only [resolveWeights]
      rw [if_pos h0]
    refine ⟨?_, ?_, ?_, ?_, ?_, padTrunc_eq _⟩
    · rw [hr]
      simp [hlen]
    · rw [hr]
      simp [hlen]
    · rw [hr]
      simp only
      rw [sum_map_div, div_self (ne_of_gt h0)]
    · intro _
      rw [hr]
      simp only
      have hpw := padTrunc_pairwise ci infl h
      have hmap : List.Pairwise (fun x y : ℚ => y ≤ x)
          ((padTrunc (b_weights_base ci infl)).map
            (fun p => p.2 / ((padTrunc (b_weights_base ci infl)).map
              (fun q => q.2)).sum)) := by
        rw [List.pairwise_map]
        exact hpw.imp (fun hab => (div_le_div_iff_of_pos_right h0).mpr hab)
      exact hmap.chain'
    · intro hz
      exact absurd (hz ▸ h0) (lt_irrefl (0 : ℚ))
  · have hr : resolveWeights ci infl = ([0, 0, 0, 0], [0, 0, 0, 1]) := by
      simp only [resolveWeights]
      rw [if_neg h0]
    refine ⟨?_, ?_, ?_, ?_, ?_, padTrunc_eq _⟩
    · rw [hr]
      rfl
    · rw [hr]
      rfl
    · rw [hr]
      norm_num
    · intro hpos
      exact absurd hpos h0
    · intro _
      rw [hr]
      exact ⟨rfl, rfl⟩

/-- Witness for C3 at a concrete influence list. -/
theorem resolve_weights_spec_witness :
    (resolveWeights [("a", 0), ("b", 1)] [("a", 1 / 2), ("b", 1 / 2)]).2.sum = 1 :=
  (resolve_weights_spec [("a", 0), ("b", 1)] [("a", 1 / 2), ("b", 1 / 2)]
    (by
      intro p hp
      simp only [List.mem_cons, List.mem_singleton] at hp
      rcases hp with rfl | rfl | hp
      · norm_num
      · norm_num
      · exact absurd hp (List.not_mem_nil p))).2.2.1

/-! ## Bone Hierarchy Resolver, import direction
    (XfbinImporter.make_armature.make_bone) -/

noncomputable section

/-- math.radians: degrees to radians. -/
def radians (x : ℝ) : ℝ := x * (Real.pi / 180)

/-- The componentwise absolute value taken of the stored scale:
    `Vector(tuple(map(lambda x: abs(x), node.scale)))`. -/
def absVec (v : Fin 3 → ℝ) : Fin 3 → ℝ := fun i => |v i|

/-- The per-component scale signs the importer records as bone metadata:
    `tuple(map(lambda x: -1 if x < 0 else 1, node.scale))`. -/
def signVec (v : Fin 3 → ℝ) : Fin 3 → ℝ := fun i => if v i < 0 then -1 else 1

/-- Rotation about the x axis by `t` radians. -/
def Rx (t : ℝ) : Matrix (Fin 3) (Fin 3) ℝ :=
  !![1, 0, 0; 0, Real.cos t, -Real.sin t; 0, Real.sin t, Real.cos t]

/-- Rotation about the y axis by `t` radians. -/
def Ry (t : ℝ) : Matrix (Fin 3) (Fin 3) ℝ :=
  !![Real.cos t, 0, Real.sin t; 0, 1, 0; -Real.sin t, 0, Real.cos t]

/-- Rotation about the z axis by `t` radians. -/
def Rz (t : ℝ) : Matrix (Fin 3) (Fin 3) ℝ :=
  !![Real.cos t, -Real.sin t, 0; Real.sin t, Real.cos t, 0; 0, 0, 1]

/-- Modelled from the spec: the Euler-to-matrix conversion
    (`rot_to_blender(...).to_matrix()`, mathutils Euler with order ZYX) is
    performed by the host math library outside src/; the spec fixes the
    composition order as Z, then Y, then X intrinsic rotations, with the
    three angles stored in degrees and converted by math.radians. -/
def rotZYX (r : Fin 3 → ℝ) : Matrix (Fin 3) (Fin 3) ℝ :=
  Rz (radians (r 2)) * Ry (radians (r 1)) * Rx (radians (r 0))

/-- A 4x4 homogeneous transform, represented by its linear 3x3 block and
    its translation column. -/
structure Aff where
  lin : Matrix (Fin 3) (Fin 3) ℝ
  tr : Fin 3 → ℝ

/-- The matrix product `@` of two homogeneous 4x4 transforms. -/
def Aff.comp (a b : Aff) : Aff :=
  ⟨a.lin * b.lin, a.lin.mulVec b.tr + a.tr⟩

/-- Matrix.Identity(4). -/
def affId : Aff := ⟨1, 0⟩

/-- Matrix.Translation(pos). -/
def translationAff (p : Fin 3 → ℝ) : Aff := ⟨1, p⟩

/-- `rot.to_matrix().to_4x4()`. -/
def rotationAff (r : Fin 3 → ℝ) : Aff := ⟨rotZYX r, 0⟩

/-- `Matrix.Diagonal(sca).to_4x4()`. -/
def scaleAff (s : Fin 3 → ℝ) : Aff := ⟨Matrix.diagonal s, 0⟩

/-- make_bone of XfbinImporter.make_armature: the world matrix assigned to
    a bone is `parent_matrix @ (Matrix.Translation(pos_cm_to_m(position)) @
    rot.to_matrix().to_4x4() @ Matrix.Diagonal(abs(scale)).to_4x4())`; the
    scale signs are stored separately as bone metadata and are not applied
    to this matrix. -/
def importBoneMatrix (parentM : Aff) (position rotation scale : Fin 3 → ℝ) : Aff :=
  Aff.comp parentM
    (Aff.comp (Aff.comp (translationAff (pos_cm_to_m position)) (rotationAff rotation))
      (scaleAff (absVec scale)))

/-- Modelled from the spec: the claimed import-direction formula
    `parent_world times compose(translate, rotate, scale times sign)`, in
    which the recorded per-component signs are reapplied to the absolute
    value of the stored scale before composing. -/
def specBoneMatrix (parentM : Aff) (position rotation scale : Fin 3 → ℝ) : Aff :=
  Aff.comp parentM
    (Aff.comp (Aff.comp (translationAff (pos_cm_to_m position)) (rotationAff rotation))
      (scaleAff (fun i => signVec scale i * absVec scale i)))

theorem rotZYX_zero : rotZYX ![0, 0, 0] = 1 := by
  have h0 : radians 0 = 0 := by simp [radians]
  have hx : Rx 0 = 1 := by simp [Rx, Matrix.one_fin_three]
  have hy : Ry 0 = 1 := by simp [Ry, Matrix.one_fin_three]
  have hz : Rz 0 = 1 := by simp [Rz, Matrix.one_fin_three]
  simp [rotZYX, h0, hx, hy, hz]

/-- C2 counterexample: for a root bone with zero position and rotation and
    stored scale (-1, 1, 1), the matrix the importer assigns (which uses
    the absolute scale) differs from the spec formula (which reapplies the
    recorded signs): their linear parts differ at entry (0,0), 1 vs -1. -/
theorem import_bone_matrix_counterexample :
    importBoneMatrix affId ![0, 0, 0] ![0, 0, 0] ![-1, 1, 1] ≠
      specBoneMatrix affId ![0, 0, 0] ![0, 0, 0] ![-1, 1, 1] := by
  have hlin1 : (importBoneMatrix affId ![0, 0, 0] ![0, 0, 0] ![-1, 1, 1]).lin =
      Matrix.diagonal (absVec ![-1, 1, 1]) := by
    simp [importBoneMatrix, Aff.comp, affId, translationAff, rotationAff, scaleAff,
      rotZYX_zero]
  have hlin2 : (specBoneMatrix affId ![0, 0, 0] ![0, 0, 0] ![-1, 1, 1]).lin =
      Matrix.diagonal (fun i => signVec ![-1, 1, 1] i * absVec ![-1, 1, 1] i) := by
    simp [specBoneMatrix, Aff.comp, affId, translationAff, rotationAff, scaleAff,
      rotZYX_zero]
  intro hEq
  have h := congrArg (fun a => a.lin 0 0) hEq
  simp only at h
  rw [hlin1, hlin2, Matrix.diagonal_apply_eq, Matrix.diagonal_apply_eq] at h
  norm_num [absVec, signVec] at h

/-- C2 amended: the importer composes each bone's world matrix as
    parent_world times translate times rotate times diagonal of the
    ABSOLUTE stored scale; the recorded signs are kept only as bone
    metadata for later export. The claimed formula (signs reapplied before
    composing) holds exactly for bones whose stored scale has no negative
    component. -/
theorem import_bone_matrix_nonneg_scale (parentM : Aff)
    (position rotation scale : Fin 3 → ℝ) (h : ∀ i, 0 ≤ scale i) :
    importBoneMatrix parentM position rotation scale =
      specBoneMatrix parentM position rotation scale := by
  have hsc : (fun i => signVec scale i * absVec scale i) = absVec scale := by
    funext i
    simp only [signVec, absVec]
    rw [if_neg (not_lt.mpr (h i)), one_mul]
  rw [importBoneMatrix, specBoneMatrix, hsc]

/-- Witness for C2 amended at a concrete non-negative scale. -/
theorem import_bone_matrix_nonneg_scale_witness :
    importBoneMatrix affId ![0, 0, 0] ![0, 0, 0] ![2, 3, 4] =
      specBoneMatrix affId ![0, 0, 0] ![0, 0, 0] ![2, 3, 4] :=
  import_bone_matrix_nonneg_scale affId ![0, 0, 0] ![0, 0, 0] ![2, 3, 4]
    (by intro i; fin_cases i <;> norm_num)

end

end Xfbin
